import Mathlib

/-!
Shallow embedding of the vscode-journal core (the configuration /
template-resolution engine in `src/ext/conf.ts` and the document-injection
engine in `src/actions/inject.ts`), together with theorems settling the
frozen claims about it.

Modelling conventions:
* JavaScript strings are embedded as `List Char` (`Str`), so that string
  scanning, `indexOf`, first-occurrence `replace` and line splitting are
  structural recursions amenable to proof.  String literals containing curly
  braces are written with the escapes `\x7b` (for the opening brace) and
  `\x7d` (for the closing brace).
* `String.prototype.replace(needle, repl)` with a string pattern replaces the
  first occurrence only; it is embedded as `replaceFirst`.  The special `$`
  replacement patterns of JavaScript (`$&` etc.) are not modelled: every
  replacement value produced by this program is spliced literally.
* `moment(date).format(spec)` (with the configured locale) is an external
  library call; it is embedded as an abstract function parameter
  `fmt : Str → Str` mapping a format spec to the formatted date text.
* The promise wrappers (`Q.Promise`) only transport a single result or a
  single error; they are embedded as `Except Str`/`Option` results, a thrown
  `TypeError` (e.g. reading `.length` of `undefined`) becoming an `error`.
-/

namespace VSJ

/-- JavaScript strings, embedded as lists of characters. -/
abbrev Str := List Char

/-- Coercion from Lean string literals into the model. -/
def S (s : String) : Str := s.data

instance {ε α : Type} [DecidableEq ε] [DecidableEq α] : DecidableEq (Except ε α) :=
  fun a b =>
    match a, b with
    | .ok x, .ok y =>
      if h : x = y then isTrue (h ▸ rfl)
      else isFalse (fun hc => h (Except.ok.inj hc))
    | .error x, .error y =>
      if h : x = y then isTrue (h ▸ rfl)
      else isFalse (fun hc => h (Except.error.inj hc))
    | .ok _, .error _ => isFalse (fun hc => Except.noConfusion hc)
    | .error _, .ok _ => isFalse (fun hc => Except.noConfusion hc)

/-- JavaScript `hay.indexOf(needle)` of JavaScript: index of the first occurrence of
`needle` in `hay`, `none` when there is no occurrence (JS returns `-1`).
As in JS, the empty needle is found at index 0. -/
def firstIndexOf (hay needle : Str) : Option Nat :=
  if needle.isPrefixOf hay then some 0
  else
    match hay with
    | [] => none
    | _ :: t => (firstIndexOf t needle).map (· + 1)

/-- JavaScript `hay.replace(needle, repl)` of JavaScript with a plain-string pattern:
replace the first occurrence of `needle` only; when `needle` does not occur,
return `hay` unchanged. -/
def replaceFirst (hay needle repl : Str) : Str :=
  match firstIndexOf hay needle with
  | none => hay
  | some i => hay.take i ++ repl ++ hay.drop (i + needle.length)

/-- Split a character stream into its lines at `'\n'` (the text-buffer view
of a document: `"a\nb"` has lines `a`, `b`, and a trailing newline yields a
final empty line). -/
def splitLines : Str → List Str
  | [] => [[]]
  | c :: rest =>
    let r := splitLines rest
    if c = '\n' then [] :: r
    else
      match r with
      | h :: t => (c :: h) :: t
      | [] => [[c]]

/-- Join document lines back into the underlying text with `'\n'`
separators (`TextDocument.getText()`). -/
def joinLines : List Str → Str
  | [] => []
  | [l] => l
  | l :: ls => l ++ '\n' :: joinLines ls

/- ### Basic lemmas about the string operations -/

theorem prefix_eq_append_drop {l₁ l₂ : Str} (h : l₁ <+: l₂) :
    l₂ = l₁ ++ l₂.drop l₁.length := by
  obtain ⟨t, rfl⟩ := h
  simp

theorem infix_iff_exists_drop (m h : Str) : m <:+: h ↔ ∃ i, m <+: h.drop i := by
  constructor
  · rintro ⟨s, t, rfl⟩
    exact ⟨s.length, by simp⟩
  · rintro ⟨i, t, ht⟩
    refine ⟨h.take i, t, ?_⟩
    rw [List.append_assoc, ht, List.take_append_drop]

theorem firstIndexOf_eq_none_iff (hay needle : Str) :
    firstIndexOf hay needle = none ↔ ¬ needle <:+: hay := by
  induction hay with
  | nil =>
    rw [firstIndexOf.eq_def]
    cases hp : needle.isPrefixOf [] with
    | true =>
      have : needle <+: [] := List.isPrefixOf_iff_prefix.mp hp
      rw [if_pos rfl]
      simp only [reduceCtorEq, false_iff, not_not]
      exact this.isInfix
    | false =>
      have hnp : ¬ needle <+: ([] : Str) := fun hc => by
        rw [List.isPrefixOf_iff_prefix.mpr hc] at hp; cases hp
      simp only [Bool.false_eq_true, if_false, true_iff]
      intro hc
      rcases (infix_iff_exists_drop _ _).mp hc with ⟨i, hi⟩
      simp only [List.drop_nil] at hi
      exact hnp hi
  | cons c t ih =>
    rw [firstIndexOf.eq_def]
    cases hp : needle.isPrefixOf (c :: t) with
    | true =>
      have : needle <+: (c :: t) := List.isPrefixOf_iff_prefix.mp hp
      rw [if_pos rfl]
      simp only [reduceCtorEq, false_iff, not_not]
      exact this.isInfix
    | false =>
      have hnp : ¬ needle <+: (c :: t) := fun hc => by
        rw [List.isPrefixOf_iff_prefix.mpr hc] at hp; cases hp
      simp only [Bool.false_eq_true, if_false, Option.map_eq_none', ih]
      constructor
      · intro hni hc
        rcases (infix_iff_exists_drop _ _).mp hc with ⟨i, hi⟩
        cases i with
        | zero => exact hnp (by simpa using hi)
        | succ j =>
          exact hni ((infix_iff_exists_drop _ _).mpr ⟨j, by simpa using hi⟩)
      · intro hni hc
        rcases (infix_iff_exists_drop _ _).mp hc with ⟨i, hi⟩
        exact hni ((infix_iff_exists_drop _ _).mpr ⟨i + 1, by simpa using hi⟩)

theorem replaceFirst_of_not_infix {hay needle : Str} (repl : Str)
    (h : ¬ needle <:+: hay) : replaceFirst hay needle repl = hay := by
  rw [replaceFirst, (firstIndexOf_eq_none_iff hay needle).mpr h]

/-- The function `firstIndexOf` finds the occurrence at index `i` when one starts there and
none starts earlier. -/
theorem firstIndexOf_of_prefix_drop {m : Str} :
    ∀ (i : Nat) (h : Str), m <+: h.drop i → (∀ j, j < i → ¬ m <+: h.drop j) →
      firstIndexOf h m = some i := by
  intro i
  induction i with
  | zero =>
    intro h hp _
    simp only [List.drop_zero] at hp
    rw [firstIndexOf.eq_def, if_pos (List.isPrefixOf_iff_prefix.mpr hp)]
  | succ i ih =>
    intro h hp hno
    match h with
    | [] =>
      simp only [List.drop_nil, List.prefix_nil] at hp
      exact absurd (hp ▸ List.nil_prefix) (hno 0 (Nat.succ_pos i))
    | c :: t =>
      have h0 : ¬ m <+: (c :: t) := by
        have := hno 0 (Nat.succ_pos i)
        simpa using this
      have hbeq : m.isPrefixOf (c :: t) = false := by
        cases hb : m.isPrefixOf (c :: t) with
        | true => exact absurd (List.isPrefixOf_iff_prefix.mp hb) h0
        | false => rfl
      rw [firstIndexOf.eq_def, if_neg (by simp [hbeq])]
      dsimp only
      have hp' : m <+: t.drop i := by simpa using hp
      have hno' : ∀ j, j < i → ¬ m <+: t.drop j := by
        intro j hj hc
        exact hno (j + 1) (Nat.succ_lt_succ hj) (by simpa using hc)
      rw [ih t hp' hno']
      rfl

/-- The central replacement lemma: if no occurrence of `m` starts strictly
before the designated one, `replace` rewrites exactly that occurrence. -/
theorem replaceFirst_append (a m b repl : Str)
    (hno : ∀ j, j < a.length → ¬ m <+: ((a ++ m ++ b).drop j)) :
    replaceFirst (a ++ m ++ b) m repl = a ++ repl ++ b := by
  have hp : m <+: ((a ++ m ++ b).drop a.length) := by
    rw [List.append_assoc, List.drop_left]
    exact ⟨b, rfl⟩
  rw [replaceFirst, firstIndexOf_of_prefix_drop a.length _ hp hno]
  have h1 : (a ++ m ++ b).take a.length = a := by
    rw [List.append_assoc, List.take_append_of_le_length (le_refl _), List.take_length]
  have h2 : (a ++ m ++ b).drop (a.length + m.length) = b := by
    have hl : a.length + m.length = (a ++ m).length := (List.length_append _ _).symm
    rw [hl]
    exact List.drop_left (a ++ m) b
  dsimp only
  rw [h1, h2]

/- ### Configuration data model (`src/ext/conf.ts`) -/

/-- Pattern entries `journal.pattern(s)` in the settings: `{path, file}`, either of
which a user configuration may omit. -/
structure PathFileDef where
  path : Option Str
  file : Option Str
deriving DecidableEq

/-- Type `PatternDefinition` of the source:
`\x7b notes: \x7bpath, file\x7d, entries: \x7bpath, file\x7d \x7d`. -/
structure PatternDefinition where
  notes : Option PathFileDef
  entries : Option PathFileDef
deriving DecidableEq

/-- An inline template as it appears in the settings (`InlineTemplate` of the
source); any field may be missing from a user configuration. -/
structure CfgInlineTemplate where
  name : Option Str
  scope : Option Str
  template : Option Str
  after : Option Str
deriving DecidableEq

/-- Type `ScopeDefinition` of the source: a named scope with its own base,
patterns and templates. -/
structure ScopeDefinition where
  name : Option Str
  base : Option Str
  patterns : Option PatternDefinition
  templates : Option (List CfgInlineTemplate)
deriving DecidableEq

/-- The live configuration snapshot read through
`vscode.WorkspaceConfiguration.get`.  The source reads the key `"pattern"`
for the notes patterns and the key `"patterns"` for the entry patterns, so
both appear here.  The legacy single-string keys `tpl-<id>` / `<id>-after`
are read with a computed name and are modelled as functions of the id. -/
structure Config where
  base : Option Str
  ext : Option Str
  pattern : Option PatternDefinition
  patterns : Option PatternDefinition
  scopes : Option (List ScopeDefinition)
  templates : Option (List CfgInlineTemplate)
  tpl : Str → Option Str
  tplAfter : Str → Option Str

/-- External collaborators of the configuration code: `os.homedir()`, the
first workspace folder, and `moment(date).format(·)` under the configured
locale (the date and locale are fixed for one resolution call). -/
structure Env where
  homedir : Str
  wsRoot : Str
  fmt : Str → Str

/-- Constant `SCOPE_DEFAULT` of the source. -/
def SCOPE_DEFAULT : Str := S "default"

/-- Embedding of `Configuration.resolveScope`: `default` when the scope id is absent or
empty, the id itself otherwise. -/
def resolveScope (scopeId : Option Str) : Str :=
  match scopeId with
  | none => SCOPE_DEFAULT
  | some s => if s.length = 0 then SCOPE_DEFAULT else s

/-- Embedding of `Util.stringIsNotEmpty`.  Modelled from the spec: the util module is not
under src/; per the spec the legacy configuration key is used "when
non-empty", i.e. when it is present and not the empty string. -/
def stringIsNotEmpty : Option Str → Bool
  | some s => !s.isEmpty
  | none => false

/-- Split a path at `'/'` (helper for the `path.posix` model). -/
def splitSlash : Str → List Str
  | [] => [[]]
  | c :: rest =>
    let r := splitSlash rest
    if c = '/' then [] :: r
    else
      match r with
      | h :: t => (c :: h) :: t
      | [] => [[c]]

/-- Node's `path.posix.normalize`: collapse redundant separators, resolve
`.` and `..` segments, keep a trailing separator. -/
def posixNormalize (p : Str) : Str :=
  if p.isEmpty then S "." else
  let isAbs := p.head? == some '/'
  let hasTrail := p.getLast? == some '/' && p.length != 1
  let parts := (splitSlash p).filter (fun s => !s.isEmpty && s != S ".")
  let parts := parts.foldl (fun acc part =>
    if part == S ".." then
      if acc.isEmpty then (if isAbs then acc else acc ++ [part])
      else if acc.getLast? == some (S "..") then acc ++ [part]
      else acc.dropLast
    else acc ++ [part]) []
  let core := List.intercalate (S "/") parts
  let core := if isAbs then '/' :: core else core
  let core := if core.isEmpty then S "." else core
  if hasTrail && core.getLast? != some '/' then core ++ [ '/' ] else core

/-- Node's `path.format(path.parse(p))` for an already normalized `p`: it
reassembles `dir` and `base`, which drops a trailing separator (except for
the root itself). -/
def formatOfParse (p : Str) : Str :=
  if p.length > 1 && p.getLast? == some '/' then p.dropLast else p

/-- Default pattern `DefaultPatternDefinition.notes.path`. -/
def defaultNotesPath : Str := S "$\x7bbase\x7d/notes"

/-- Default pattern `DefaultPatternDefinition.notes.file`. -/
def defaultNotesFile : Str := S "N$\x7byear\x7d$\x7bmonth\x7d$\x7bday\x7d_$\x7binput\x7d.$\x7bext\x7d"

/-- Default pattern `DefaultPatternDefinition.entries.path`. -/
def defaultEntriesPath : Str := S "$\x7bbase\x7d/entries"

/-- Default pattern `DefaultPatternDefinition.entries.file`. -/
def defaultEntriesFile : Str := S "$\x7byear\x7d-$\x7bmonth\x7d-$\x7bday\x7d $\x7bweekday\x7d.$\x7bext\x7d"

/-- Embedding of `Configuration.getBasePath` in the default scope: the configured base
(with `$\x7bhomeDir\x7d` / `$\x7bworkspaceRoot\x7d` resolved and the path
normalized) when present and non-empty, else `homedir/Journal`
(`Path.resolve` with an absolute home directory). -/
def getBasePathDefault (env : Env) (cfg : Config) : Str :=
  match cfg.base with
  | some b =>
    if b.length > 0 then
      let b := replaceFirst b (S "$\x7bhomeDir\x7d") env.homedir
      let b := replaceFirst b (S "$\x7bworkspaceRoot\x7d") env.wsRoot
      formatOfParse (posixNormalize b)
    else posixNormalize (env.homedir ++ S "/Journal")
  | none => posixNormalize (env.homedir ++ S "/Journal")

/-- Embedding of `Configuration.getBasePath`.  In a non-default scope the base comes
from the matching scope definition; with no scopes configured the source
falls through to `throw new Error("Failed to resolve base path")`; a scope
definition without a `base` makes `scopedBase.replace` throw. -/
def getBasePath (env : Env) (cfg : Config) (scopeId : Option Str) : Except Str Str :=
  let scope := resolveScope scopeId
  if scope == SCOPE_DEFAULT then .ok (getBasePathDefault env cfg)
  else
    match cfg.scopes with
    | none => .error (S "Failed to resolve base path")
    | some scopes =>
      let matching := scopes.filter (fun v => v.name == some scope)
      if matching.any (fun sd => sd.base == none) then .error (S "TypeError")
      else
        let base := (matching.filterMap (·.base)).map (fun sb =>
          formatOfParse (posixNormalize (replaceFirst sb (S "$\x7bhomeDir\x7d") env.homedir)))
        match base with
        | [] => .ok (getBasePathDefault env cfg)
        | b :: _ => .ok b

/-- Embedding of `Configuration.getFileExtension`.  The guard
`isNullOrUndefined(ext) && ext!.length === 0` dereferences `undefined` when
the key is missing (a `TypeError`), and therefore the `'md'` default is
unreachable; a leading `.` is stripped. -/
def getFileExtension (cfg : Config) : Except Str Str :=
  match cfg.ext with
  | none => .error (S "TypeError")
  | some e => .ok (if e.head? == some '.' then e.drop 1 else e)

/-- Embedding of `Configuration.replaceVariableValue`: replace the first occurrence of
`$\x7bkey\x7d` when the token occurs (the source guards with a
`template.search` on a regex built from the key; for the plain alphanumeric
keys this program passes, that is containment of the literal token). -/
def replaceVariableValue (key value template : Str) : Str :=
  let tok := S "$\x7b" ++ key ++ S "\x7d"
  if tok <:+: template then replaceFirst template tok value else template

/- ### The date-format scan (`regExpDateFormats` and `replaceDateFormats`) -/

/-- One attempt of the regular expression
`\$\\x7b(?:(year|month|day|localTime|localDate|weekday)|(d:[\s\S]+?))\\x7d`
at the start of `s`: the fixed alternatives first, then the custom
`d:` form, whose lazy body extends to the first closing brace after at
least one character.  Returns the matched text and the remainder. -/
def tryToken (s : Str) : Option (Str × Str) :=
  if (S "$\x7byear\x7d").isPrefixOf s then some (S "$\x7byear\x7d", s.drop 7)
  else if (S "$\x7bmonth\x7d").isPrefixOf s then some (S "$\x7bmonth\x7d", s.drop 8)
  else if (S "$\x7bday\x7d").isPrefixOf s then some (S "$\x7bday\x7d", s.drop 6)
  else if (S "$\x7blocalTime\x7d").isPrefixOf s then some (S "$\x7blocalTime\x7d", s.drop 12)
  else if (S "$\x7blocalDate\x7d").isPrefixOf s then some (S "$\x7blocalDate\x7d", s.drop 12)
  else if (S "$\x7bweekday\x7d").isPrefixOf s then some (S "$\x7bweekday\x7d", s.drop 10)
  else if (S "$\x7bd:").isPrefixOf s then
    match s.drop 4 with
    | [] => none
    | c :: tail =>
      let spec := c :: tail.takeWhile (· ≠ '\x7d')
      let rest := tail.dropWhile (· ≠ '\x7d')
      if rest.isEmpty then none
      else some (S "$\x7bd:" ++ spec ++ S "\x7d", rest.tail)
  else none

/-- The global left-to-right scan of `template.match(regExpDateFormats)`:
on a failed attempt the engine advances one character, on a success it
continues after the match.  Returns the list of
(text before the match, match) segments and the unmatched tail.
The fuel argument is the length of the remaining input. -/
def scanAux : Nat → Str → List (Str × Str) × Str
  | 0, s => ([], s)
  | fuel + 1, s =>
    match tryToken s with
    | some (tok, rest) =>
      let p := scanAux fuel rest
      (([], tok) :: p.1, p.2)
    | none =>
      match s with
      | [] => ([], [])
      | c :: cs =>
        let p := scanAux fuel cs
        match p.1 with
        | (b, m) :: rest2 => ((c :: b, m) :: rest2, p.2)
        | [] => ([], c :: p.2)

/-- The scan of a whole template. -/
def scanDateTokens (t : Str) : List (Str × Str) × Str := scanAux t.length t

/-- Result of `template.match(this.regExpDateFormats) || []`: the list of matched
token texts, in order. -/
def dateMatches (t : Str) : List Str := (scanDateTokens t).1.map (·.2)

/-- One iteration of the `matches.forEach` switch in
`Configuration.replaceDateFormats`: replace the first occurrence of the
matched text by the formatted date (`mom.format(...)`); for the custom form
the format spec is `match.substring(match.indexOf("d:") + 2,
match.length - 1)`, which for a match starting with `$\x7bd:` is
`(m.drop 4).dropLast`. -/
def dateStep (fmt : Str → Str) (template m : Str) : Str :=
  if m == S "$\x7byear\x7d" then replaceFirst template m (fmt (S "YYYY"))
  else if m == S "$\x7bmonth\x7d" then replaceFirst template m (fmt (S "MM"))
  else if m == S "$\x7bday\x7d" then replaceFirst template m (fmt (S "DD"))
  else if m == S "$\x7blocalTime\x7d" then replaceFirst template m (fmt (S "LT"))
  else if m == S "$\x7blocalDate\x7d" then replaceFirst template m (fmt (S "LL"))
  else if m == S "$\x7bweekday\x7d" then replaceFirst template m (fmt (S "dddd"))
  else if (S "$\x7bd:").isPrefixOf m then replaceFirst template m (fmt ((m.drop 4).dropLast))
  else template

/-- Embedding of `Configuration.replaceDateFormats`: collect all matches of the date
regex in the template, then for each match (in order) replace its first
occurrence in the current template. -/
def replaceDateFormats (fmt : Str → Str) (template : Str) : Str :=
  (dateMatches template).foldl (dateStep fmt) template

/- ### The pattern lookups and resolvers -/

/-- The configured definition read by `getNotesPathPattern`:
`config.get("pattern")?.notes?.path` in the default scope, the matching
scope definition's `patterns?.notes?.path` otherwise (`.pop()` takes the
last match). -/
def lookupNotesPath (cfg : Config) (scopeId : Option Str) : Option Str :=
  if resolveScope scopeId == SCOPE_DEFAULT then
    (cfg.pattern.bind (·.notes)).bind (·.path)
  else
    ((((cfg.scopes.getD []).filter (fun sd => sd.name == scopeId)).getLast?).bind
      (·.patterns)).bind (·.notes) |>.bind (·.path)

/-- The configured definition read by `getNotesFilePattern`. -/
def lookupNotesFile (cfg : Config) (scopeId : Option Str) : Option Str :=
  if resolveScope scopeId == SCOPE_DEFAULT then
    (cfg.pattern.bind (·.notes)).bind (·.file)
  else
    ((((cfg.scopes.getD []).filter (fun sd => sd.name == scopeId)).getLast?).bind
      (·.patterns)).bind (·.notes) |>.bind (·.file)

/-- The configured definition read by `getEntryPathPattern`
(`config.get("patterns")?.entries?.path`). -/
def lookupEntriesPath (cfg : Config) (scopeId : Option Str) : Option Str :=
  if resolveScope scopeId == SCOPE_DEFAULT then
    (cfg.patterns.bind (·.entries)).bind (·.path)
  else
    ((((cfg.scopes.getD []).filter (fun sd => sd.name == scopeId)).getLast?).bind
      (·.patterns)).bind (·.entries) |>.bind (·.path)

/-- The configured definition read by `getEntryFilePattern`. -/
def lookupEntriesFile (cfg : Config) (scopeId : Option Str) : Option Str :=
  if resolveScope scopeId == SCOPE_DEFAULT then
    (cfg.patterns.bind (·.entries)).bind (·.file)
  else
    ((((cfg.scopes.getD []).filter (fun sd => sd.name == scopeId)).getLast?).bind
      (·.patterns)).bind (·.entries) |>.bind (·.file)

/-- The "missing or empty definition falls back to the hard-coded default"
step shared by all four resolvers. -/
def definitionOrDefault : Option Str → Str → Str
  | some d, deflt => if d.isEmpty then deflt else d
  | none, deflt => deflt

/-- The pattern string `getNotesPathPattern` puts into
`scopedTemplate.template`. -/
def notesPathDef (cfg : Config) (scopeId : Option Str) : Str :=
  definitionOrDefault (lookupNotesPath cfg scopeId) defaultNotesPath

/-- The pattern string `getNotesFilePattern` puts into
`scopedTemplate.template`. -/
def notesFileDef (cfg : Config) (scopeId : Option Str) : Str :=
  definitionOrDefault (lookupNotesFile cfg scopeId) defaultNotesFile

/-- The pattern string `getEntryPathPattern` puts into
`scopedTemplate.template`. -/
def entriesPathDef (cfg : Config) (scopeId : Option Str) : Str :=
  definitionOrDefault (lookupEntriesPath cfg scopeId) defaultEntriesPath

/-- The pattern string `getEntryFilePattern` puts into
`scopedTemplate.template`. -/
def entriesFileDef (cfg : Config) (scopeId : Option Str) : Str :=
  definitionOrDefault (lookupEntriesFile cfg scopeId) defaultEntriesFile

/-- Shape of `ScopedTemplate` after a pattern resolution: the chosen raw pattern in
`template`, the substituted string in `value`. -/
structure ScopedTemplate where
  scope : Str
  template : Str
  value : Str
deriving DecidableEq

/-- The `scopedTemplate.scope` field as the four resolvers set it. -/
def resolvedScopeField (scopeId : Option Str) : Str :=
  if resolveScope scopeId == SCOPE_DEFAULT then SCOPE_DEFAULT else scopeId.getD []

/-- Embedding of `Configuration.getNotesPathPattern`: pick the configured or default
pattern, then substitute `homeDir`, then `base`, then the date tokens. -/
def getNotesPathPattern (env : Env) (cfg : Config) (scopeId : Option Str) :
    Except Str ScopedTemplate :=
  let defn := notesPathDef cfg scopeId
  let v := replaceVariableValue (S "homeDir") env.homedir defn
  match getBasePath env cfg scopeId with
  | .error e => .error e
  | .ok bp =>
    let v := replaceVariableValue (S "base") bp v
    .ok { scope := resolvedScopeField scopeId, template := defn,
          value := replaceDateFormats env.fmt v }

/-- Embedding of `Configuration.getNotesFilePattern`: pick the configured or default
pattern, then substitute `ext`, then `input`, then the date tokens. -/
def getNotesFilePattern (env : Env) (cfg : Config) (input : Str)
    (scopeId : Option Str) : Except Str ScopedTemplate :=
  let defn := notesFileDef cfg scopeId
  match getFileExtension cfg with
  | .error e => .error e
  | .ok ext =>
    let v := replaceVariableValue (S "ext") ext defn
    let v := replaceVariableValue (S "input") input v
    .ok { scope := resolvedScopeField scopeId, template := defn,
          value := replaceDateFormats env.fmt v }

/-- Embedding of `Configuration.getEntryPathPattern`: pick the configured or default
pattern, substitute `base`, then the date tokens, then clean the path with
`Path.normalize`. -/
def getEntryPathPattern (env : Env) (cfg : Config) (scopeId : Option Str) :
    Except Str ScopedTemplate :=
  let defn := entriesPathDef cfg scopeId
  match getBasePath env cfg scopeId with
  | .error e => .error e
  | .ok bp =>
    let v := replaceVariableValue (S "base") bp defn
    let v := replaceDateFormats env.fmt v
    .ok { scope := resolvedScopeField scopeId, template := defn,
          value := posixNormalize v }

/-- Embedding of `Configuration.getEntryFilePattern`: pick the configured or default
pattern, substitute `ext`, then the date tokens. -/
def getEntryFilePattern (env : Env) (cfg : Config) (scopeId : Option Str) :
    Except Str ScopedTemplate :=
  let defn := entriesFileDef cfg scopeId
  match getFileExtension cfg with
  | .error e => .error e
  | .ok ext =>
    let v := replaceVariableValue (S "ext") ext defn
    .ok { scope := resolvedScopeField scopeId, template := defn,
          value := replaceDateFormats env.fmt v }

/- ### Inline templates (`getInlineTemplate` and the content templates) -/

/-- The object `getInlineTemplate` resolves: name/scope/template/after
(`template` stays optional because a configured template entry may lack the
field; the source only "safeguards" it by mis-assigning `after`). -/
structure InlineTplResult where
  name : Option Str
  scope : Option Str
  template : Option Str
  after : Str
deriving DecidableEq

/-- Embedding of `Configuration.getInlineTemplate`: legacy `tpl-<id>` key first; else the
named entry of the top-level template list for the default scope.  For a
non-default scope the source computes the scoped lookup but never assigns it
to `pattern` (and its filter predicate is the assignment `sd.name = scope`),
so `pattern` stays undefined and the default body wins.  A found entry is
"safeguarded": a missing `after` becomes `''`, and a missing `template`
assigns the default value to `after` (sic). -/
def getInlineTemplate (cfg : Config) (id dflt scopeId : Str) : InlineTplResult :=
  let scope := resolveScope (some scopeId)
  if stringIsNotEmpty (cfg.tpl id) then
    { name := some id, scope := some SCOPE_DEFAULT,
      template := some ((cfg.tpl id).getD []),
      after := if stringIsNotEmpty (cfg.tplAfter id) then (cfg.tplAfter id).getD [] else [] }
  else
    let pattern : Option CfgInlineTemplate :=
      if scope == SCOPE_DEFAULT then
        ((cfg.templates.getD []).filter (fun tpl => tpl.name == some id)).getLast?
      else none
    match pattern with
    | none => { name := some id, scope := some SCOPE_DEFAULT, template := some dflt,
                after := [] }
    | some pat =>
      let a1 := match pat.after with | none => [] | some a => a
      let a2 := if pat.template == none then dflt else a1
      { name := pat.name, scope := pat.scope, template := pat.template, after := a2 }

/-- A content template after `getEntryTemplate` / `getNotesTemplate` added
the substituted `value`. -/
structure ContentTemplateResult where
  name : Option Str
  scope : Option Str
  template : Option Str
  after : Str
  value : Str
deriving DecidableEq

/-- Embedding of `Configuration.getEntryTemplate`: resolve the inline template `entry`
(default body `"# $\x7blocalDate\x7d\n\n"`), rewrite the legacy
`\x7bcontent\x7d` placeholder to `$\x7blocalDate\x7d`, then substitute date
tokens and `base`. -/
def getEntryTemplate (env : Env) (cfg : Config) (scopeId : Option Str) :
    Except Str ContentTemplateResult :=
  let sp := getInlineTemplate cfg (S "entry") (S "# $\x7blocalDate\x7d\n\n")
    (resolveScope scopeId)
  match sp.template with
  | none => .error (S "TypeError")
  | some t =>
    let t := replaceFirst t (S "\x7bcontent\x7d") (S "$\x7blocalDate\x7d")
    let v := replaceDateFormats env.fmt t
    match getBasePath env cfg scopeId with
    | .error e => .error e
    | .ok bp =>
      .ok { name := sp.name, scope := sp.scope, template := some t, after := sp.after,
            value := replaceVariableValue (S "base") bp v }

/-- Embedding of `Configuration.getNotesTemplate`: resolve the inline template `note`
(default body `"# $\x7binput\x7d\n$\x7btags\x7d\n"`), rewrite the legacy
`\x7bcontent\x7d` placeholder to `$\x7binput\x7d`, then substitute date
tokens. -/
def getNotesTemplate (env : Env) (cfg : Config) (scopeId : Option Str) :
    Except Str ContentTemplateResult :=
  let sp := getInlineTemplate cfg (S "note") (S "# $\x7binput\x7d\n$\x7btags\x7d\n")
    (resolveScope scopeId)
  match sp.template with
  | none => .error (S "TypeError")
  | some t =>
    let t := replaceFirst t (S "\x7bcontent\x7d") (S "$\x7binput\x7d")
    .ok { name := sp.name, scope := sp.scope, template := some t, after := sp.after,
          value := replaceDateFormats env.fmt t }

theorem splitLines_no_newline {a : Str} (h : '\n' ∉ a) : splitLines a = [a] := by
  induction a with
  | nil => rfl
  | cons c t ih =>
    have hc : ¬ c = '\n' := fun hc => h (hc ▸ List.mem_cons_self c t)
    have ht : '\n' ∉ t := fun hm => h (List.mem_cons_of_mem c hm)
    rw [splitLines]
    simp only [ih ht, if_neg hc]

theorem splitLines_append_newline {a : Str} (b : Str) (h : '\n' ∉ a) :
    splitLines (a ++ '\n' :: b) = a :: splitLines b := by
  induction a with
  | nil => simp [splitLines]
  | cons c t ih =>
    have hc : ¬ c = '\n' := fun hc => h (hc ▸ List.mem_cons_self c t)
    have ht : '\n' ∉ t := fun hm => h (List.mem_cons_of_mem c hm)
    rw [List.cons_append, splitLines]
    simp only [ih ht, if_neg hc]

/- ### The document / editor model used by `src/actions/inject.ts`

A `vscode.TextDocument` is its list of lines (none of which contains a
newline); `getText()` joins them with `'\n'`.  The relevant pieces of the
editor API (`validatePosition`, `positionAt`, `lineAt(..).isEmptyOrWhitespace`,
`WorkspaceEdit` insertions applied by `vscode.workspace.applyEdit`) are
modelled following their documented behaviour: positions beyond the last
line are clamped to the end of the last line, an over-long character is
clamped to the line length, and all insertions of one `WorkspaceEdit` are
interpreted against the document as it was when the edit was built — edits
at the same position being applied in the order they were added. -/

/-- Position of `vscode.Position`: zero-based line and character. -/
structure Pos where
  line : Nat
  char : Nat
deriving DecidableEq

/-- Method `Position.translate(1)`: one line down, same character. -/
def translateDown (p : Pos) : Pos := ⟨p.line + 1, p.char⟩

/-- Method `Position.isAfterOrEqual(q)`. -/
def posAfterOrEqual (p q : Pos) : Bool :=
  decide (q.line < p.line) || ((p.line == q.line) && decide (q.char ≤ p.char))

/-- Ordering used to sort the insertions of a `WorkspaceEdit`. -/
def posLeB (p q : Pos) : Bool :=
  decide (p.line < q.line) || ((p.line == q.line) && decide (p.char ≤ q.char))

/-- Document as a list of lines. -/
abbrev Doc := List Str

/-- Line access, `lineAt(l).text` (out of range gives the empty line; the
source only reads validated lines). -/
def lineAtD (doc : Doc) (l : Nat) : Str := doc.getD l []

/-- Character class of the regex `\s`. -/
def isWsChar (c : Char) : Bool :=
  c == ' ' || c == '\t' || c == '\n' || c == '\r' || c == '\x0b' || c == '\x0c'

/-- Property `TextLine.isEmptyOrWhitespace`. -/
def isEmptyOrWhitespace (l : Str) : Bool := l.all isWsChar

/-- Test `text.search(/^#+\s+.*$/) >= 0` on a line: one or more `#`, then a
whitespace character (backtracking inside `#+` cannot help because every
earlier continuation character is `#`). -/
def isHeaderLine (l : Str) : Bool :=
  let hashes := l.takeWhile (· == '#')
  !hashes.isEmpty &&
    (match (l.drop hashes.length).head? with
     | some c => isWsChar c
     | none => false)

/-- Method `TextDocument.validatePosition`: clamp the line into the document
and the character into the line (a line beyond the end becomes the end of
the last line). -/
def validatePosition (doc : Doc) (p : Pos) : Pos :=
  if doc.isEmpty then ⟨0, 0⟩
  else if p.line ≥ doc.length then ⟨doc.length - 1, (lineAtD doc (doc.length - 1)).length⟩
  else ⟨p.line, min p.char (lineAtD doc p.line).length⟩

/-- Method `TextDocument.positionAt(offset)` (offset clamped into the
text). -/
def positionAt : Doc → Nat → Pos
  | [], _ => ⟨0, 0⟩
  | [l], off => ⟨0, min off l.length⟩
  | l :: l2 :: rest, off =>
    if off ≤ l.length then ⟨0, off⟩
    else
      let p := positionAt (l2 :: rest) (off - (l.length + 1))
      ⟨p.line + 1, p.char⟩

/-- End of the last line, `lineAt(lineCount - 1).range.end`. -/
def docEnd (doc : Doc) : Pos := ⟨doc.length - 1, (lineAtD doc (doc.length - 1)).length⟩

/-- Splice `v` into a single line at character `c`; newlines inside `v`
split the line. -/
def spliceIntoLine (line : Str) (c : Nat) (v : Str) : List Str :=
  splitLines (line.take c ++ v ++ line.drop c)

/-- One insertion into the document at a position (clamped as the editor
does). -/
def insertAtPos : Doc → Pos → Str → Doc
  | [], _, v => splitLines v
  | x :: xs, p, v =>
    let l := min p.line ((x :: xs).length - 1)
    let c := min p.char (lineAtD (x :: xs) l).length
    (x :: xs).take l ++ spliceIntoLine (lineAtD (x :: xs) l) c v ++ (x :: xs).drop (l + 1)

/-- Stable insertion into an already sorted insertion list (an insertion
with an equal position goes after the existing ones). -/
def insertSorted (e : Pos × Str) : List (Pos × Str) → List (Pos × Str)
  | [] => [e]
  | f :: rest => if posLeB f.1 e.1 then f :: insertSorted e rest else e :: f :: rest

/-- Stable sort of the insertions of a `WorkspaceEdit` by position. -/
def sortEdits (edits : List (Pos × Str)) : List (Pos × Str) :=
  edits.foldl (fun acc e => insertSorted e acc) []

/-- Semantics of `vscode.workspace.applyEdit` for a `WorkspaceEdit` holding
insertions into one document: every position refers to the document at
build time; the insertions are applied together (descending through the
sorted list keeps every original coordinate valid, and equal positions end
up in the order they were added). -/
def applyEdit (doc : Doc) (edits : List (Pos × Str)) : Doc :=
  ((sortEdits edits).reverse).foldl (fun d e => insertAtPos d e.1 e.2) doc

/-- Type `InlineString` of `inject.ts`: the fully computed edit. -/
structure InlineString where
  position : Pos
  value : Str
  document : Doc
deriving DecidableEq

/-- Function `Inject.buildInlineString`: substitute the value pairs into the
template value, then locate the insertion position — line 1 column 0 by
default; when the template declares an anchor (`after`), the first
occurrence of the anchor at a strictly positive offset puts the position
one line below it (validated); an anchor that is missing or at offset 0
keeps the default.  An anchor starting with `#` and the no-anchor case
prefix the content with a line break. -/
def buildInlineString (doc : Doc) (tpl : ContentTemplateResult)
    (values : List (Str × Str)) : InlineString :=
  let content := values.foldl (fun c v => replaceFirst c v.1 v.2) tpl.value
  let dflt : Pos := ⟨1, 0⟩
  if tpl.after.length ≠ 0 then
    let offset := firstIndexOf (joinLines doc) tpl.after
    let content := if tpl.after.head? == some '#' then '\n' :: content else content
    match offset with
    | some o =>
      if o > 0 then
        { position := translateDown (validatePosition doc (positionAt doc o)),
          value := content, document := doc }
      else { position := dflt, value := content, document := doc }
    | none => { position := dflt, value := content, document := doc }
  else { position := dflt, value := '\n' :: content, document := doc }

/-- Function `Inject.injectInlineString` for entries sharing one document:
a requested character 0 marks a new-line insertion; the position is
validated; if the target line holds non-whitespace text a trailing line
break is appended (plus a leading one when inserting at or past the end of
the document); if the following line is a markdown header another line
break is appended.  The primary insertion and every additional one (each
additional value getting a trailing line break) are put into a single
`WorkspaceEdit` and applied as one edit. -/
def injectInlineString (content : InlineString) (other : List InlineString) : Doc :=
  let doc := content.document
  let newLine := content.position.char == 0
  let p := validatePosition doc content.position
  let v := content.value
  let v :=
    if newLine && !(isEmptyOrWhitespace (lineAtD doc p.line)) then
      let v := if posAfterOrEqual p (docEnd doc) then '\n' :: v else v
      v ++ [ '\n' ]
    else v
  let v :=
    if newLine && decide (doc.length > p.line + 1) then
      if isHeaderLine (lineAtD doc (p.line + 1)) then v ++ [ '\n' ] else v
    else v
  applyEdit doc ((p, v) :: other.map (fun o => (o.position, o.value ++ [ '\n' ])))

/- ### Specification-side definitions and the scan/splice theory for the
date-format pass -/

/-- Reassemble a scan decomposition: concatenate each (before, match)
segment and the tail. -/
def assembleSegs (segs : List (Str × Str)) (tail : Str) : Str :=
  segs.foldr (fun bm acc => bm.1 ++ bm.2 ++ acc) tail

/-- Replacement value of one matched token (the values used by the switch
in `replaceDateFormats`). -/
def tokenValue (fmt : Str → Str) (m : Str) : Str :=
  if m == S "$\x7byear\x7d" then fmt (S "YYYY")
  else if m == S "$\x7bmonth\x7d" then fmt (S "MM")
  else if m == S "$\x7bday\x7d" then fmt (S "DD")
  else if m == S "$\x7blocalTime\x7d" then fmt (S "LT")
  else if m == S "$\x7blocalDate\x7d" then fmt (S "LL")
  else if m == S "$\x7bweekday\x7d" then fmt (S "dddd")
  else if (S "$\x7bd:").isPrefixOf m then fmt ((m.drop 4).dropLast)
  else m

/-- Does one of the replacing branches of the switch apply to `m`? -/
def goodTok (m : Str) : Bool :=
  m == S "$\x7byear\x7d" || m == S "$\x7bmonth\x7d" || m == S "$\x7bday\x7d" ||
  m == S "$\x7blocalTime\x7d" || m == S "$\x7blocalDate\x7d" ||
  m == S "$\x7bweekday\x7d" || (S "$\x7bd:").isPrefixOf m

/-- Substitute a scan decomposition: each matched token becomes its value,
all other text stays verbatim. -/
def spliceSegs (fmt : Str → Str) (segs : List (Str × Str)) (tail : Str) : Str :=
  segs.foldr (fun bm acc => bm.1 ++ tokenValue fmt bm.2 ++ acc) tail

/-- Modelled from the spec: "fully replaces every occurrence of a
recognized token, leaving unrecognized `$\x7b...\x7d` tokens untouched" —
the template with every occurrence found by the left-to-right scan replaced
by its formatted value and all the remaining text verbatim. -/
def specReplaceAllDateTokens (fmt : Str → Str) (t : Str) : Str :=
  spliceSegs fmt (scanDateTokens t).1 (scanDateTokens t).2

/-- Non-interference condition for the sequential replacement pass: walking
the segments in order with the already-substituted prefix `P`, no
occurrence of the current match may start before the scanned one (that can
happen when a replacement value recreates token text, see the
counterexample for C4). -/
def evolvedNoStray (fmt : Str → Str) : Str → List (Str × Str) → Str → Bool
  | _, [], _ => true
  | P, (b, m) :: segs, tail =>
    goodTok m &&
    (List.range (P ++ b).length).all
      (fun j => !(m.isPrefixOf ((P ++ b ++ m ++ assembleSegs segs tail).drop j))) &&
    evolvedNoStray fmt (P ++ b ++ tokenValue fmt m) segs tail

theorem dropWhile_head_prop {p : Char → Bool} :
    ∀ (l : Str) (w : Char) (r : Str), l.dropWhile p = w :: r → p w = false := by
  intro l
  induction l with
  | nil => intro w r h; cases h
  | cons c t ih =>
    intro w r h
    rw [List.dropWhile] at h
    cases hp : p c with
    | true => rw [hp] at h; exact ih w r h
    | false =>
      rw [hp] at h
      injection h with h1 _
      subst h1
      exact hp

theorem tryToken_sound {s tok rest : Str} (h : tryToken s = some (tok, rest)) :
    s = tok ++ rest ∧ tok ≠ [] := by
  rw [tryToken] at h
  split_ifs at h with h1 h2 h3 h4 h5 h6 h7
  · injection h with h'
    injection h' with he hr
    subst he; subst hr
    refine ⟨?_, by decide⟩
    have := prefix_eq_append_drop (List.isPrefixOf_iff_prefix.mp h1)
    simpa using this
  · injection h with h'
    injection h' with he hr
    subst he; subst hr
    refine ⟨?_, by decide⟩
    have := prefix_eq_append_drop (List.isPrefixOf_iff_prefix.mp h2)
    simpa using this
  · injection h with h'
    injection h' with he hr
    subst he; subst hr
    refine ⟨?_, by decide⟩
    have := prefix_eq_append_drop (List.isPrefixOf_iff_prefix.mp h3)
    simpa using this
  · injection h with h'
    injection h' with he hr
    subst he; subst hr
    refine ⟨?_, by decide⟩
    have := prefix_eq_append_drop (List.isPrefixOf_iff_prefix.mp h4)
    simpa using this
  · injection h with h'
    injection h' with he hr
    subst he; subst hr
    refine ⟨?_, by decide⟩
    have := prefix_eq_append_drop (List.isPrefixOf_iff_prefix.mp h5)
    simpa using this
  · injection h with h'
    injection h' with he hr
    subst he; subst hr
    refine ⟨?_, by decide⟩
    have := prefix_eq_append_drop (List.isPrefixOf_iff_prefix.mp h6)
    simpa using this
  · have hs : s = S "$\x7bd:" ++ s.drop 4 := by
      have := prefix_eq_append_drop (List.isPrefixOf_iff_prefix.mp h7)
      simpa using this
    rcases hdd : s.drop 4 with _ | ⟨c, tail⟩
    · rw [hdd] at h; cases h
    · rw [hdd] at h
      simp only [] at h
      rcases hdw : tail.dropWhile (· ≠ '\x7d') with _ | ⟨w, r⟩
      · rw [hdw] at h
        simp at h
      · rw [hdw] at h
        have hw : w = '\x7d' := by
          have := dropWhile_head_prop tail w r hdw
          simpa using this
        subst hw
        simp only [List.isEmpty_cons, Bool.false_eq_true, if_false, List.tail_cons] at h
        injection h with h'
        injection h' with he hr
        subst he; subst hr
        refine ⟨?_, by simp [S]⟩
        rw [hs, hdd]
        have htl : tail = tail.takeWhile (· ≠ '\x7d') ++ tail.dropWhile (· ≠ '\x7d') :=
          (List.takeWhile_append_dropWhile _ _).symm
        conv_lhs => rw [htl, hdw]
        simp [S]

theorem scanAux_succ (fuel : Nat) (s : Str) : scanAux (fuel + 1) s =
    (match tryToken s with
     | some (tok, rest) =>
       let p := scanAux fuel rest
       (([], tok) :: p.1, p.2)
     | none =>
       match s with
       | [] => ([], [])
       | c :: cs =>
         let p := scanAux fuel cs
         match p.1 with
         | (b, m) :: rest2 => ((c :: b, m) :: rest2, p.2)
         | [] => ([], c :: p.2)) := rfl

theorem scanAux_assemble :
    ∀ (fuel : Nat) (s : Str), s.length ≤ fuel →
      assembleSegs (scanAux fuel s).1 (scanAux fuel s).2 = s := by
  intro fuel
  induction fuel with
  | zero =>
    intro s hs
    have : s = [] := List.eq_nil_of_length_eq_zero (Nat.le_zero.mp hs)
    subst this
    rfl
  | succ fuel ih =>
    intro s hs
    rw [scanAux_succ]
    cases htt : tryToken s with
    | some p =>
      obtain ⟨tok, rest⟩ := p
      obtain ⟨hseq, hne⟩ := tryToken_sound htt
      have hlen : rest.length ≤ fuel := by
        have : s.length = tok.length + rest.length := by
          rw [hseq, List.length_append]
        have htok : 1 ≤ tok.length := by
          cases tok with
          | nil => exact absurd rfl hne
          | cons a b => simp
        omega
      simp only []
      rw [assembleSegs]
      simp only [List.foldr_cons]
      have := ih rest hlen
      rw [assembleSegs] at this
      rw [this, List.nil_append]
      exact hseq.symm
    | none =>
      cases s with
      | nil => rfl
      | cons c cs =>
        have hlen : cs.length ≤ fuel := by
          simp only [List.length_cons] at hs
          omega
        have hrec := ih cs hlen
        simp only []
        cases hsegs : (scanAux fuel cs).1 with
        | nil =>
          rw [hsegs] at hrec
          rw [assembleSegs] at hrec ⊢
          simp only [List.foldr_nil] at hrec ⊢
          rw [hrec]
        | cons bm rest2 =>
          obtain ⟨b, m⟩ := bm
          rw [hsegs] at hrec
          rw [assembleSegs] at hrec ⊢
          simp only [List.foldr_cons] at hrec ⊢
          rw [List.cons_append, List.cons_append]
          rw [hrec]

theorem dateStep_eq_replace (fmt : Str → Str) (t m : Str)
    (hg : goodTok m = true) :
    dateStep fmt t m = replaceFirst t m (tokenValue fmt m) := by
  rw [goodTok] at hg
  simp only [Bool.or_eq_true, beq_iff_eq] at hg
  rcases hg with ((((((h | h) | h) | h) | h) | h) | h)
  · subst h; rfl
  · subst h; rfl
  · subst h; rfl
  · subst h; rfl
  · subst h; rfl
  · subst h; rfl
  · have h1 : ¬ m = S "$\x7byear\x7d" := by
      rintro rfl; revert h; decide
    have h2 : ¬ m = S "$\x7bmonth\x7d" := by
      rintro rfl; revert h; decide
    have h3 : ¬ m = S "$\x7bday\x7d" := by
      rintro rfl; revert h; decide
    have h4 : ¬ m = S "$\x7blocalTime\x7d" := by
      rintro rfl; revert h; decide
    have h5 : ¬ m = S "$\x7blocalDate\x7d" := by
      rintro rfl; revert h; decide
    have h6 : ¬ m = S "$\x7bweekday\x7d" := by
      rintro rfl; revert h; decide
    rw [dateStep, tokenValue]
    simp only [beq_iff_eq, if_neg h1, if_neg h2, if_neg h3, if_neg h4, if_neg h5, if_neg h6,
      if_pos h]

theorem foldl_dateStep_splice (fmt : Str → Str) :
    ∀ (segs : List (Str × Str)) (P tail : Str),
      evolvedNoStray fmt P segs tail = true →
      List.foldl (dateStep fmt) (P ++ assembleSegs segs tail) (segs.map (·.2)) =
        P ++ spliceSegs fmt segs tail := by
  intro segs
  induction segs with
  | nil => intro P tail _; rfl
  | cons bm segs ih =>
    obtain ⟨b, m⟩ := bm
    intro P tail hns
    rw [evolvedNoStray] at hns
    simp only [Bool.and_eq_true] at hns
    obtain ⟨⟨hg, hall⟩, hrec⟩ := hns
    have hno : ∀ j, j < (P ++ b).length →
        ¬ m <+: (((P ++ b) ++ m ++ assembleSegs segs tail).drop j) := by
      intro j hj hc
      have hj' : j ∈ List.range (P ++ b).length := List.mem_range.mpr hj
      have hb := (List.all_eq_true.mp hall) j hj'
      rw [List.isPrefixOf_iff_prefix.mpr hc] at hb
      simp at hb
    have hstep : dateStep fmt (P ++ assembleSegs ((b, m) :: segs) tail) m =
        (P ++ b) ++ tokenValue fmt m ++ assembleSegs segs tail := by
      rw [dateStep_eq_replace fmt _ m hg]
      have hshape : P ++ assembleSegs ((b, m) :: segs) tail =
          (P ++ b) ++ m ++ assembleSegs segs tail := by
        simp only [assembleSegs, List.foldr_cons, List.append_assoc]
      rw [hshape]
      exact replaceFirst_append (P ++ b) m (assembleSegs segs tail) _ hno
    simp only [List.map_cons, List.foldl_cons]
    rw [hstep]
    have hshape2 : (P ++ b) ++ tokenValue fmt m ++ assembleSegs segs tail =
        (P ++ b ++ tokenValue fmt m) ++ assembleSegs segs tail := by
      simp [List.append_assoc]
    rw [hshape2, ih (P ++ b ++ tokenValue fmt m) tail hrec]
    simp only [spliceSegs, List.foldr_cons, List.append_assoc]

/- ### Specification-side value chains for the path / file resolvers -/

/-- Modelled from the claim's words for a path template: substitute
`homeDir`, then `base`, then the date tokens over the fetched template. -/
def claimPathSubst (env : Env) (bp t : Str) : Str :=
  replaceDateFormats env.fmt
    (replaceVariableValue (S "base") bp
      (replaceVariableValue (S "homeDir") env.homedir t))

/-- Modelled from the claim's words for a file template: substitute `ext`,
then `input`, then the date tokens over the fetched template. -/
def claimFileSubst (env : Env) (ext input t : Str) : Str :=
  replaceDateFormats env.fmt
    (replaceVariableValue (S "input") input
      (replaceVariableValue (S "ext") ext t))

/-- Substitution chain the entry-path resolver actually performs: `base`,
then the date tokens (no `homeDir` pass). -/
def codeEntryPathSubst (env : Env) (bp t : Str) : Str :=
  replaceDateFormats env.fmt (replaceVariableValue (S "base") bp t)

/-- Substitution chain the entry-file resolver actually performs: `ext`,
then the date tokens (no `input` pass). -/
def codeEntryFileSubst (env : Env) (ext t : Str) : Str :=
  replaceDateFormats env.fmt (replaceVariableValue (S "ext") ext t)

/-- Type `J.Model.Input`: the user's parsed input. -/
structure Input where
  text : Str
  tags : List Str
  scope : Option Str

/-- Function `Inject.buildNoteContent`: resolve the notes template for the
input's scope, then substitute the first `$\x7binput\x7d` with the entered
text and the first `$\x7btags\x7d` with the joined tags plus a line
break. -/
def buildNoteContent (env : Env) (cfg : Config) (input : Input) : Except Str Str :=
  match getNotesTemplate env cfg input.scope with
  | .error e => .error e
  | .ok ft =>
    let v := replaceFirst ft.value (S "$\x7binput\x7d") input.text
    let v := replaceFirst v (S "$\x7btags\x7d") (List.intercalate (S " ") input.tags ++ [ '\n' ])
    .ok v

/- ### Fixtures for the concrete theorems -/

/-- A configuration with every key absent. -/
def cfgNone : Config :=
  { base := none, ext := none, pattern := none, patterns := none,
    scopes := none, templates := none, tpl := fun _ => none, tplAfter := fun _ => none }

/-- A fixed environment: home directory `/home/u`, empty workspace root and
a date formatter returning the empty string. -/
def envEx : Env := ⟨S "/home/u", [], fun _ => []⟩

/-- A configuration whose default-scope notes path pattern is overridden. -/
def cfgOverride : Config :=
  { cfgNone with pattern := some ⟨some ⟨some (S "/p"), none⟩, none⟩ }

theorem definitionOrDefault_ne_nil (x : Option Str) (dflt : Str) (h : dflt ≠ []) :
    definitionOrDefault x dflt ≠ [] := by
  cases x with
  | none => exact h
  | some d =>
    rw [definitionOrDefault]
    by_cases hd : d.isEmpty
    · rw [if_pos hd]; exact h
    · rw [if_neg hd]
      intro hc
      subst hc
      exact hd rfl

/-- C1: for every pattern kind and every scope, the pattern lookup yields
the configured override when one is present and non-empty, otherwise the
built-in default, the result is never the empty string, and each resolver
stores exactly this lookup in the `template` field of its result. -/
theorem c1_pattern_lookup_override_or_default (cfg : Config) (scopeId : Option Str) :
    ((∀ d, lookupNotesPath cfg scopeId = some d → d ≠ [] → notesPathDef cfg scopeId = d) ∧
     ((lookupNotesPath cfg scopeId = none ∨ lookupNotesPath cfg scopeId = some []) →
       notesPathDef cfg scopeId = defaultNotesPath) ∧
     notesPathDef cfg scopeId ≠ []) ∧
    ((∀ d, lookupNotesFile cfg scopeId = some d → d ≠ [] → notesFileDef cfg scopeId = d) ∧
     ((lookupNotesFile cfg scopeId = none ∨ lookupNotesFile cfg scopeId = some []) →
       notesFileDef cfg scopeId = defaultNotesFile) ∧
     notesFileDef cfg scopeId ≠ []) ∧
    ((∀ d, lookupEntriesPath cfg scopeId = some d → d ≠ [] → entriesPathDef cfg scopeId = d) ∧
     ((lookupEntriesPath cfg scopeId = none ∨ lookupEntriesPath cfg scopeId = some []) →
       entriesPathDef cfg scopeId = defaultEntriesPath) ∧
     entriesPathDef cfg scopeId ≠ []) ∧
    ((∀ d, lookupEntriesFile cfg scopeId = some d → d ≠ [] → entriesFileDef cfg scopeId = d) ∧
     ((lookupEntriesFile cfg scopeId = none ∨ lookupEntriesFile cfg scopeId = some []) →
       entriesFileDef cfg scopeId = defaultEntriesFile) ∧
     entriesFileDef cfg scopeId ≠ []) ∧
    (∀ env st, getNotesPathPattern env cfg scopeId = .ok st →
      st.template = notesPathDef cfg scopeId) ∧
    (∀ env input st, getNotesFilePattern env cfg input scopeId = .ok st →
      st.template = notesFileDef cfg scopeId) ∧
    (∀ env st, getEntryPathPattern env cfg scopeId = .ok st →
      st.template = entriesPathDef cfg scopeId) ∧
    (∀ env st, getEntryFilePattern env cfg scopeId = .ok st →
      st.template = entriesFileDef cfg scopeId) := by
  have hlift : ∀ (x : Option Str) (dflt : Str),
      (∀ d, x = some d → d ≠ [] → definitionOrDefault x dflt = d) ∧
      ((x = none ∨ x = some []) → definitionOrDefault x dflt = dflt) := by
    intro x dflt
    constructor
    · intro d hd hne
      subst hd
      rw [definitionOrDefault]
      rw [if_neg (by simpa using hne)]
    · rintro (h | h) <;> subst h <;> rw [definitionOrDefault]
      rw [if_pos (by decide)]
  refine ⟨⟨(hlift _ _).1, (hlift _ _).2, definitionOrDefault_ne_nil _ _ (by decide)⟩,
          ⟨(hlift _ _).1, (hlift _ _).2, definitionOrDefault_ne_nil _ _ (by decide)⟩,
          ⟨(hlift _ _).1, (hlift _ _).2, definitionOrDefault_ne_nil _ _ (by decide)⟩,
          ⟨(hlift _ _).1, (hlift _ _).2, definitionOrDefault_ne_nil _ _ (by decide)⟩,
          ?_, ?_, ?_, ?_⟩
  · intro env st h
    rw [getNotesPathPattern] at h
    cases hbp : getBasePath env cfg scopeId with
    | error e => rw [hbp] at h; cases h
    | ok bp =>
      rw [hbp] at h
      injection h with h'
      rw [← h']
  · intro env input st h
    rw [getNotesFilePattern] at h
    cases hext : getFileExtension cfg with
    | error e => rw [hext] at h; cases h
    | ok e =>
      rw [hext] at h
      injection h with h'
      rw [← h']
  · intro env st h
    rw [getEntryPathPattern] at h
    cases hbp : getBasePath env cfg scopeId with
    | error e => rw [hbp] at h; cases h
    | ok bp =>
      rw [hbp] at h
      injection h with h'
      rw [← h']
  · intro env st h
    rw [getEntryFilePattern] at h
    cases hext : getFileExtension cfg with
    | error e => rw [hext] at h; cases h
    | ok e =>
      rw [hext] at h
      injection h with h'
      rw [← h']

/-- Witness for C1 at two concrete configurations: a present non-empty
override is returned as is, an absent one falls back to the built-in
default. -/
theorem c1_pattern_lookup_witness :
    notesPathDef cfgOverride none = S "/p" ∧
    notesPathDef cfgNone none = defaultNotesPath := by
  constructor
  · exact (c1_pattern_lookup_override_or_default cfgOverride none).1.1 (S "/p")
      (by decide) (by decide)
  · exact (c1_pattern_lookup_override_or_default cfgNone none).1.2.1 (Or.inl (by decide))

/-- A template entry named `entry` with body `WORKTPL`, as configured
inside the scope `work`. -/
def scopeWorkEntryTpl : CfgInlineTemplate :=
  { name := some (S "entry"), scope := none, template := some (S "WORKTPL"),
    after := some [] }

/-- The scope definition named `work` carrying that template. -/
def scopeWork : ScopeDefinition :=
  { name := some (S "work"), base := none, patterns := none,
    templates := some [scopeWorkEntryTpl] }

/-- A configuration with no legacy template key and a scope `work` whose
template list defines the inline template `entry`. -/
def cfgScopedTpl : Config := { cfgNone with scopes := some [scopeWork] }

/-- C2 (code bug): requesting the inline template `entry` in scope `work`
— whose template list defines exactly that template — still resolves to the
hard-coded default body, because the source computes the scoped lookup but
never assigns it to `pattern` (`src/ext/conf.ts`, the unassigned expression
statement in `getInlineTemplate`, whose filter even uses the assignment
`sd.name = scope`).  The three-tier fallback claimed for every scope
therefore skips tier (b) for every non-default scope. -/
theorem c2_scoped_template_ignored :
    getInlineTemplate cfgScopedTpl (S "entry") (S "# $\x7blocalDate\x7d\n\n") (S "work") =
      { name := some (S "entry"), scope := some SCOPE_DEFAULT,
        template := some (S "# $\x7blocalDate\x7d\n\n"), after := [] } ∧
    (getInlineTemplate cfgScopedTpl (S "entry") (S "# $\x7blocalDate\x7d\n\n")
        (S "work")).template ≠ some (S "WORKTPL") := by
  constructor
  · decide
  · decide

/-- C5: the literal variable substitution replaces only the first
occurrence of the variable token: a template without the token is returned
unchanged, and on a decomposition `a ++ token ++ b` in which no occurrence
starts before `a.length` the result is `a ++ value ++ b` — every later
occurrence (inside `b`) is left unresolved. -/
theorem c5_replace_first_occurrence_only (key value template : Str) :
    (¬ (S "$\x7b" ++ key ++ S "\x7d") <:+: template →
      replaceVariableValue key value template = template) ∧
    (∀ a b, template = a ++ (S "$\x7b" ++ key ++ S "\x7d") ++ b →
      (∀ j, j < a.length → ¬ (S "$\x7b" ++ key ++ S "\x7d") <+: template.drop j) →
      replaceVariableValue key value template = a ++ value ++ b) := by
  constructor
  · intro h
    rw [replaceVariableValue]
    rw [if_neg h]
  · intro a b hdecomp hno
    subst hdecomp
    rw [replaceVariableValue]
    rw [if_pos ⟨a, b, rfl⟩]
    exact replaceFirst_append a _ b value hno

/-- Witness for C5: with two occurrences of the token, only the first is
substituted and the second remains in the output. -/
theorem c5_replace_first_witness :
    replaceVariableValue (S "input") (S "V")
        (S "X$\x7binput\x7dY$\x7binput\x7dZ") = S "XVY$\x7binput\x7dZ" ∧
    (S "$\x7binput\x7d") <:+: S "XVY$\x7binput\x7dZ" := by
  constructor
  · have h := (c5_replace_first_occurrence_only (S "input") (S "V")
      (S "X$\x7binput\x7dY$\x7binput\x7dZ")).2 (S "X") (S "Y$\x7binput\x7dZ")
      (by decide) (by decide)
    exact h.trans (by decide)
  · decide

/-- C6: a non-empty anchor that does not occur in the document text keeps
the default position line 1, column 0, and the call resolves normally to an
`InlineString` (no exception path exists in this branch); the content is
the substituted template value, prefixed by a line break exactly when the
anchor starts with a markdown header marker. -/
theorem c6_missing_anchor_keeps_default (doc : Doc) (tpl : ContentTemplateResult)
    (values : List (Str × Str)) (hne : tpl.after ≠ [])
    (hmiss : ¬ tpl.after <:+: joinLines doc) :
    buildInlineString doc tpl values =
      { position := ⟨1, 0⟩,
        value := (if tpl.after.head? == some '#' then
            '\n' :: values.foldl (fun c v => replaceFirst c v.1 v.2) tpl.value
          else values.foldl (fun c v => replaceFirst c v.1 v.2) tpl.value),
        document := doc } := by
  rw [buildInlineString]
  rw [if_pos (by simpa using hne)]
  rw [(firstIndexOf_eq_none_iff _ _).mpr hmiss]

/-- Witness for C6: anchor `## Tasks` is absent from the document, the
computed insertion keeps position (1,0). -/
theorem c6_missing_anchor_witness :
    buildInlineString [S "# T", S "x"]
        { name := none, scope := none, template := none, after := S "## Tasks",
          value := S "- buy milk" } [] =
      { position := ⟨1, 0⟩, value := S "\n- buy milk",
        document := [S "# T", S "x"] } := by
  have h := c6_missing_anchor_keeps_default [S "# T", S "x"]
    { name := none, scope := none, template := none, after := S "## Tasks",
      value := S "- buy milk" } [] (by decide) (by decide)
  exact h.trans (by decide)

/-- C10: when the document text begins with the anchor (first occurrence at
offset 0), `buildInlineString` keeps the default position line 1, column 0
— only a strictly positive offset counts as a found anchor
(`if (offset > 0)`). -/
theorem c10_anchor_at_offset_zero_keeps_default (doc : Doc)
    (tpl : ContentTemplateResult) (values : List (Str × Str))
    (hne : tpl.after ≠ []) (hpre : tpl.after <+: joinLines doc) :
    (buildInlineString doc tpl values).position = ⟨1, 0⟩ := by
  rw [buildInlineString]
  rw [if_pos (by simpa using hne)]
  have hidx : firstIndexOf (joinLines doc) tpl.after = some 0 := by
    rw [firstIndexOf.eq_def, if_pos (List.isPrefixOf_iff_prefix.mpr hpre)]
  rw [hidx]
  simp

/-- Witness for C10: the document starts with the anchor `## Tasks`; the
insertion position stays (1,0) instead of moving below the anchor. -/
theorem c10_anchor_at_offset_zero_witness :
    (buildInlineString [S "## Tasks", S "x"]
        { name := none, scope := none, template := none, after := S "## Tasks",
          value := S "- buy milk" } []).position = ⟨1, 0⟩ :=
  c10_anchor_at_offset_zero_keeps_default [S "## Tasks", S "x"]
    { name := none, scope := none, template := none, after := S "## Tasks",
      value := S "- buy milk" } [] (by decide) (by decide)

/-- A configuration whose entry path pattern uses `$\x7bhomeDir\x7d` (with
a configured base so that the base-path lookup succeeds). -/
def cfgHomeDirEntry : Config :=
  { cfgNone with
    base := some (S "/home/u/J"),
    ext := some (S "md"),
    patterns := some ⟨none, some ⟨some (S "$\x7bhomeDir\x7d/J"), none⟩⟩ }

/-- C7 counterexample: the claim says every path-pattern resolver
substitutes `homeDir` first, but `getEntryPathPattern` performs no
`homeDir` pass at all: on the override `$\x7bhomeDir\x7d/J` the code keeps
the token unresolved, while the claimed chain would resolve it to
`/home/u/J`. -/
theorem c7_substitution_order_counterexample :
    (getEntryPathPattern envEx cfgHomeDirEntry none).map (·.value) =
      .ok (S "$\x7bhomeDir\x7d/J") ∧
    (getBasePath envEx cfgHomeDirEntry none).map
        (fun bp => posixNormalize
          (claimPathSubst envEx bp (entriesPathDef cfgHomeDirEntry none))) =
      .ok (S "/home/u/J") ∧
    (getEntryPathPattern envEx cfgHomeDirEntry none).map (·.value) ≠
      (getBasePath envEx cfgHomeDirEntry none).map
        (fun bp => posixNormalize
          (claimPathSubst envEx bp (entriesPathDef cfgHomeDirEntry none))) := by
  refine ⟨by decide, by decide, by decide⟩

/-- C7 as amended: the note-path resolver substitutes `homeDir`, then
`base`, then the date tokens; the note-file resolver substitutes `ext`,
then `input`, then the date tokens; the entry-path resolver substitutes
only `base` and then the date tokens (and normalizes); the entry-file
resolver substitutes only `ext` and then the date tokens — each over the
fetched template. -/
theorem c7_substitution_order_amended (env : Env) (cfg : Config) (input : Str)
    (scopeId : Option Str) :
    (getNotesPathPattern env cfg scopeId).map (·.value) =
      (getBasePath env cfg scopeId).map
        (fun bp => claimPathSubst env bp (notesPathDef cfg scopeId)) ∧
    (getNotesFilePattern env cfg input scopeId).map (·.value) =
      (getFileExtension cfg).map
        (fun e => claimFileSubst env e input (notesFileDef cfg scopeId)) ∧
    (getEntryPathPattern env cfg scopeId).map (·.value) =
      (getBasePath env cfg scopeId).map
        (fun bp => posixNormalize (codeEntryPathSubst env bp (entriesPathDef cfg scopeId))) ∧
    (getEntryFilePattern env cfg scopeId).map (·.value) =
      (getFileExtension cfg).map
        (fun e => codeEntryFileSubst env e (entriesFileDef cfg scopeId)) := by
  refine ⟨?_, ?_, ?_, ?_⟩
  · rw [getNotesPathPattern]
    cases hbp : getBasePath env cfg scopeId with
    | error e => rfl
    | ok bp => rfl
  · rw [getNotesFilePattern]
    cases hext : getFileExtension cfg with
    | error e => rfl
    | ok e => rfl
  · rw [getEntryPathPattern]
    cases hbp : getBasePath env cfg scopeId with
    | error e => rfl
    | ok bp => rfl
  · rw [getEntryFilePattern]
    cases hext : getFileExtension cfg with
    | error e => rfl
    | ok e => rfl

/-- A configuration whose configured path patterns contain a doubled
separator after the `$\x7bbase\x7d` token. -/
def cfgDoubleSlash : Config :=
  { cfgNone with
    base := some (S "/b"),
    pattern := some ⟨some ⟨some (S "$\x7bbase\x7d//notes"), none⟩, none⟩,
    patterns := some ⟨none, some ⟨some (S "$\x7bbase\x7d//entries"), none⟩⟩ }

/-- C9: after substitution the entry-path resolver normalizes the result as
a filesystem path while the note-path resolver returns the substituted
string unchanged; concretely, a doubled separator survives in the note path
(`/b//notes`) and is collapsed in the entry path (`/b/entries`). -/
theorem c9_entry_path_normalized_notes_path_not :
    (∀ (env : Env) (cfg : Config) (scopeId : Option Str),
      (getEntryPathPattern env cfg scopeId).map (·.value) =
        (getBasePath env cfg scopeId).map
          (fun bp => posixNormalize (codeEntryPathSubst env bp (entriesPathDef cfg scopeId))) ∧
      (getNotesPathPattern env cfg scopeId).map (·.value) =
        (getBasePath env cfg scopeId).map
          (fun bp => claimPathSubst env bp (notesPathDef cfg scopeId))) ∧
    (getNotesPathPattern envEx cfgDoubleSlash none).map (·.value) =
      .ok (S "/b//notes") ∧
    (getEntryPathPattern envEx cfgDoubleSlash none).map (·.value) =
      .ok (S "/b/entries") := by
  refine ⟨?_, by decide, by decide⟩
  intro env cfg scopeId
  constructor
  · rw [getEntryPathPattern]
    cases hbp : getBasePath env cfg scopeId with
    | error e => rfl
    | ok bp => rfl
  · rw [getNotesPathPattern]
    cases hbp : getBasePath env cfg scopeId with
    | error e => rfl
    | ok bp => rfl

/-- C8: with the legacy key `tpl-note` set to `Title: \x7bcontent\x7d`, the
notes template resolves through the legacy tier, `\x7bcontent\x7d` is
rewritten to `$\x7binput\x7d` before date substitution, and building the
note content yields `Title: <user input>` (provided the entered text does
not itself contain the `$\x7btags\x7d` token, which the later tag pass
would replace). -/
theorem c8_legacy_note_title (env : Env) (cfg : Config) (input : Input)
    (hleg : cfg.tpl (S "note") = some (S "Title: \x7bcontent\x7d"))
    (htags : ¬ (S "$\x7btags\x7d") <:+: (S "Title: " ++ input.text)) :
    buildNoteContent env cfg input = .ok (S "Title: " ++ input.text) := by
  have hnt : getNotesTemplate env cfg input.scope = .ok
      { name := some (S "note"), scope := some SCOPE_DEFAULT,
        template := some (S "Title: $\x7binput\x7d"),
        after := (if stringIsNotEmpty (cfg.tplAfter (S "note")) then
          (cfg.tplAfter (S "note")).getD [] else []),
        value := S "Title: $\x7binput\x7d" } := by
    rw [getNotesTemplate, getInlineTemplate, hleg]
    rw [if_pos (by decide)]
    dsimp only [Option.getD]
    have hrf : replaceFirst (S "Title: \x7bcontent\x7d") (S "\x7bcontent\x7d")
        (S "$\x7binput\x7d") = S "Title: $\x7binput\x7d" := by decide
    rw [hrf]
    have hrd : replaceDateFormats env.fmt (S "Title: $\x7binput\x7d") =
        S "Title: $\x7binput\x7d" := by
      rw [replaceDateFormats,
        (by decide : dateMatches (S "Title: $\x7binput\x7d") = ([] : List Str))]
      rfl
    rw [hrd]
  rw [buildNoteContent, hnt]
  have hsplit : S "Title: $\x7binput\x7d" =
      S "Title: " ++ S "$\x7binput\x7d" ++ ([] : Str) := by decide
  have hv1 : replaceFirst (S "Title: $\x7binput\x7d") (S "$\x7binput\x7d") input.text =
      S "Title: " ++ input.text := by
    rw [hsplit, replaceFirst_append _ _ _ _ (by decide), List.append_nil]
  dsimp only
  rw [hv1, replaceFirst_of_not_infix _ htags]

/-- The legacy key table holding only `tpl-note`. -/
def legacyNoteTpl : Str → Option Str := fun id =>
  if id == S "note" then some (S "Title: \x7bcontent\x7d") else none

/-- A configuration whose only key is the legacy `tpl-note`. -/
def cfgLegacyNote : Config := { cfgNone with tpl := legacyNoteTpl }

/-- The input `hello` with no tags. -/
def inputHello : Input := ⟨S "hello", [], none⟩

/-- Witness for C8: the built note content for input `hello` is
`Title: hello`. -/
theorem c8_legacy_note_witness :
    buildNoteContent envEx cfgLegacyNote inputHello = .ok (S "Title: hello") := by
  have h := c8_legacy_note_title envEx cfgLegacyNote inputHello (by decide) (by decide)
  exact h.trans (by decide)

/-- A date formatter for a fixed date in 2020: `YYYY` renders `2020`, and
the bracket-escaped spec `[yea]` renders the literal text `yea` (brackets
delimit literal text in a moment format spec — the spec notes the custom
token's format spec "is passed through verbatim to the formatting
library"). -/
def fmtEx : Str → Str := fun fspec =>
  if fspec == S "[yea]" then S "yea"
  else if fspec == S "YYYY" then S "2020"
  else []

/-- The template of the C4 counterexample. -/
def c4Template : Str := S "$\x7b$\x7bd:[yea]\x7dr\x7d $\x7byear\x7d"

/-- C4 counterexample: on `$\x7b$\x7bd:[yea]\x7dr\x7d $\x7byear\x7d` the
scan recognizes the custom token and the `year` token; replacing the custom
token rewrites the template to `$\x7byear\x7d $\x7byear\x7d`, and the
subsequent `year` replacement hits the fabricated first occurrence —
the original `$\x7byear\x7d` occurrence survives unreplaced in the output,
so `replaceDateFormats` does not replace every occurrence of each
recognized token. -/
theorem c4_replace_date_formats_counterexample :
    dateMatches c4Template = [S "$\x7bd:[yea]\x7d", S "$\x7byear\x7d"] ∧
    replaceDateFormats fmtEx c4Template = S "2020 $\x7byear\x7d" ∧
    (S "$\x7byear\x7d") <:+: c4Template ∧
    (S "$\x7byear\x7d") <:+: replaceDateFormats fmtEx c4Template := by
  refine ⟨by decide, by decide, by decide, by decide⟩

/-- C4 as amended: a template in which the scan finds no date token is
returned unchanged; and whenever no replacement value fabricates an earlier
occurrence of a later match (the `evolvedNoStray` side condition violated
by the counterexample), the result is exactly the template with every
scanned token occurrence replaced by its formatted value and all remaining
text — including unrecognized `$\x7b...\x7d` tokens — left verbatim. -/
theorem c4_replace_date_formats_amended :
    (∀ (fmt : Str → Str) (t : Str), dateMatches t = [] →
      replaceDateFormats fmt t = t) ∧
    (∀ (fmt : Str → Str) (t : Str),
      evolvedNoStray fmt [] (scanDateTokens t).1 (scanDateTokens t).2 = true →
      replaceDateFormats fmt t = specReplaceAllDateTokens fmt t) := by
  constructor
  · intro fmt t h
    rw [replaceDateFormats, h]
    rfl
  · intro fmt t h
    have hassem : assembleSegs (scanDateTokens t).1 (scanDateTokens t).2 = t :=
      scanAux_assemble t.length t (le_refl _)
    have hmain := foldl_dateStep_splice fmt (scanDateTokens t).1 []
      (scanDateTokens t).2 h
    rw [List.nil_append, List.nil_append] at hmain
    rw [replaceDateFormats, specReplaceAllDateTokens, dateMatches]
    rw [hassem] at hmain
    exact hmain

/-- A date formatter rendering `YYYY` as `2020`. -/
def fmtW : Str → Str := fun fspec =>
  if fspec == S "YYYY" then S "2020" else S "x"

/-- A witness template with two `year` tokens and one unrecognized
token. -/
def c4WitnessTemplate : Str := S "a$\x7byear\x7db$\x7bfoo\x7d$\x7byear\x7d"

/-- Witness for C4: a template without date tokens passes through
unchanged, and the sequential pass on the witness template equals the
full splice, which replaces both `year` occurrences and leaves
`$\x7bfoo\x7d` untouched. -/
theorem c4_replace_date_formats_witness :
    (dateMatches (S "plain text") = [] ∧
      replaceDateFormats fmtW (S "plain text") = S "plain text") ∧
    (evolvedNoStray fmtW [] (scanDateTokens c4WitnessTemplate).1
        (scanDateTokens c4WitnessTemplate).2 = true ∧
      replaceDateFormats fmtW c4WitnessTemplate =
        specReplaceAllDateTokens fmtW c4WitnessTemplate ∧
      specReplaceAllDateTokens fmtW c4WitnessTemplate =
        S "a2020b$\x7bfoo\x7d2020") := by
  refine ⟨⟨by decide, c4_replace_date_formats_amended.1 fmtW _ (by decide)⟩,
    by decide, c4_replace_date_formats_amended.2 fmtW _ (by decide), by decide⟩

/- ### C3: batched insertion -/

theorem posLeB_self (p : Pos) : posLeB p p = true := by
  simp [posLeB]

/-- Applying one `WorkspaceEdit` holding two insertions at the same
position: both are interpreted against the original document and the first
added ends up first in the text. -/
theorem applyEdit_two_same (doc : Doc) (p : Pos) (w1 w2 : Str) :
    applyEdit doc [(p, w1), (p, w2)] = insertAtPos (insertAtPos doc p w2) p w1 := by
  rw [applyEdit, sortEdits]
  have h1 : List.foldl (fun acc e => insertSorted e acc) [] [(p, w1), (p, w2)] =
      [(p, w1), (p, w2)] := by
    simp [insertSorted, posLeB_self]
  rw [h1]
  simp

theorem spliceIntoLine_zero (ln w : Str) :
    spliceIntoLine ln 0 w = splitLines (w ++ ln) := by
  rw [spliceIntoLine]
  simp

theorem insertAtPos_line_one (L0 ln : Str) (tl : List Str) (w : Str) :
    insertAtPos (L0 :: ln :: tl) ⟨1, 0⟩ w = L0 :: (splitLines (w ++ ln) ++ tl) := by
  rw [insertAtPos]
  have hmin : min 1 (ln :: tl).length = 1 :=
    Nat.min_eq_left (Nat.succ_le_succ (Nat.zero_le _))
  simp only [hmin, lineAtD]
  simp [spliceIntoLine_zero]

/-- The document of the C3 counterexample: text `header\n`, i.e. the line
`header` followed by an empty line. -/
def c3DocEx : Doc := [S "header", []]

/-- C3 counterexample: batching the two values `A` and `B` at the default
position (1,0) of the document `header\n` produces `header\nAB\n` — the
primary value gets no trailing line break because its target line is empty,
so `A` and `B` end up concatenated on one line and neither value is on its
own line. -/
theorem c3_batched_insert_counterexample :
    injectInlineString ⟨⟨1, 0⟩, S "A", c3DocEx⟩ [⟨⟨1, 0⟩, S "B", c3DocEx⟩] =
      [S "header", S "AB", []] ∧
    ¬ (S "A") ∈ injectInlineString ⟨⟨1, 0⟩, S "A", c3DocEx⟩ [⟨⟨1, 0⟩, S "B", c3DocEx⟩] ∧
    ¬ (S "B") ∈ injectInlineString ⟨⟨1, 0⟩, S "A", c3DocEx⟩ [⟨⟨1, 0⟩, S "B", c3DocEx⟩] := by
  refine ⟨by decide, by decide, by decide⟩

/-- C3 as amended: both insertions are carried by one `WorkspaceEdit`
applied against the call-time document, and when the target line of the
default position holds non-whitespace text, batching two single-line values
at (1,0) puts each value on its own line of the resulting document, for any
document tail; when that line is empty or whitespace-only the primary value
receives no trailing line break and a same-position insertion lands on the
same line (see the counterexample). -/
theorem c3_batched_insert_amended (L0 L1 : Str) (rest : List Str) (v1 v2 : Str)
    (hL1w : isEmptyOrWhitespace L1 = false) (hL1 : '\n' ∉ L1)
    (hv1 : '\n' ∉ v1) (hv2 : '\n' ∉ v2) :
    v1 ∈ injectInlineString ⟨⟨1, 0⟩, v1, L0 :: L1 :: rest⟩
        [⟨⟨1, 0⟩, v2, L0 :: L1 :: rest⟩] ∧
    v2 ∈ injectInlineString ⟨⟨1, 0⟩, v1, L0 :: L1 :: rest⟩
        [⟨⟨1, 0⟩, v2, L0 :: L1 :: rest⟩] := by
  have hL1ne : L1 ≠ [] := by
    intro h
    subst h
    exact absurd hL1w (by decide)
  have hval : validatePosition (L0 :: L1 :: rest) ⟨1, 0⟩ = ⟨1, 0⟩ := by
    rw [validatePosition]
    rw [if_neg (by simp)]
    rw [if_neg (by simp)]
    simp [lineAtD]
  have hge : posAfterOrEqual ⟨1, 0⟩ (docEnd (L0 :: L1 :: rest)) = false := by
    rw [docEnd]
    cases rest with
    | nil =>
      simp only [List.length_cons, List.length_nil, posAfterOrEqual, lineAtD]
      simp [Nat.le_zero, List.length_eq_zero, hL1ne]
    | cons r rs =>
      simp only [List.length_cons, posAfterOrEqual, lineAtD]
      simp
  rw [injectInlineString]
  simp only [hval]
  simp only [show ((⟨1, 0⟩ : Pos).char == 0) = true from rfl]
  simp only [show lineAtD (L0 :: L1 :: rest) 1 = L1 from rfl]
  simp only [hL1w, hge, Bool.not_false, Bool.and_true, Bool.true_and, if_true,
    Bool.false_eq_true, if_false, List.map_cons, List.map_nil]
  rw [applyEdit_two_same]
  rw [insertAtPos_line_one]
  simp only [List.append_assoc, List.singleton_append]
  rw [splitLines_append_newline L1 hv2, splitLines_no_newline hL1]
  simp only [List.cons_append, List.nil_append]
  cases rest with
  | nil =>
    simp only [List.length_cons, List.length_nil]
    rw [if_neg (show ¬ (decide (0 + 1 + 1 > 1 + 1) = true) from by decide)]
    rw [insertAtPos_line_one]
    simp only [List.append_assoc, List.singleton_append]
    rw [splitLines_append_newline v2 hv1, splitLines_no_newline hv2]
    simp
  | cons r rs =>
    simp only [List.length_cons]
    rw [if_pos (by simp only [decide_eq_true_eq]; omega)]
    simp only [show lineAtD (L0 :: L1 :: r :: rs) (1 + 1) = r from rfl]
    by_cases hh : isHeaderLine r = true
    · rw [if_pos hh]
      rw [insertAtPos_line_one]
      simp only [List.append_assoc, List.singleton_append, List.cons_append,
        List.nil_append]
      rw [splitLines_append_newline _ hv1]
      rw [show splitLines ('\n' :: v2) = [] :: splitLines v2 from by rw [splitLines]; simp]
      rw [splitLines_no_newline hv2]
      simp
    · rw [if_neg hh]
      rw [insertAtPos_line_one]
      simp only [List.append_assoc, List.singleton_append]
      rw [splitLines_append_newline v2 hv1, splitLines_no_newline hv2]
      simp

/-- Witness for C3 (amended): batching `- milk` and `- tea` at (1,0) into
the document `# Head / ## Tasks / x` puts each value on its own line. -/
theorem c3_batched_insert_witness :
    isEmptyOrWhitespace (S "## Tasks") = false ∧
    (S "- milk") ∈ injectInlineString
        ⟨⟨1, 0⟩, S "- milk", [S "# Head", S "## Tasks", S "x"]⟩
        [⟨⟨1, 0⟩, S "- tea", [S "# Head", S "## Tasks", S "x"]⟩] ∧
    (S "- tea") ∈ injectInlineString
        ⟨⟨1, 0⟩, S "- milk", [S "# Head", S "## Tasks", S "x"]⟩
        [⟨⟨1, 0⟩, S "- tea", [S "# Head", S "## Tasks", S "x"]⟩] := by
  have h := c3_batched_insert_amended (S "# Head") (S "## Tasks") [S "x"]
    (S "- milk") (S "- tea") (by decide) (by decide) (by decide) (by decide)
  exact ⟨by decide, h.1, h.2⟩

end VSJ
